import Mathlib

/-!
Verification development for the S3 backup/restore program (program3.py).
The file embeds the program's path/key mapping, change detection, backup and
restore traversals, and command-line dispatch as executable Lean definitions,
and proves or refutes the specification's claims about them.

Paths are plain strings over the separator '/'; the Python standard-library
path helpers the program calls (os.path.join, os.path.relpath, os.path.dirname,
str.replace, str.split) are embedded from their posixpath definitions,
restricted as noted in each doc comment.
-/

set_option maxHeartbeats 1000000

/-- Splitting of a character list at every occurrence of a separator
character, as Python str.split with a one-character separator: empty groups
are kept, and the result always has exactly one more group than there are
separator occurrences. -/
def splitSep (sep : Char) : List Char → List (List Char)
  | [] => [[]]
  | c :: rest =>
    match splitSep sep rest with
    | [] => [[]]
    | g :: gs => if c = sep then [] :: g :: gs else (c :: g) :: gs

/-- Character-list test for a leading '/' (Python str.startswith for the
one-character separator). -/
def startsWithSlash : List Char → Bool
  | [] => false
  | c :: _ => c == '/'

/-- Character-list test for a trailing '/' (Python str.endswith for the
one-character separator; also the program's own obj.key[-1] == '/' check). -/
def endsWithSlash (l : List Char) : Bool :=
  l.getLast? == some '/'

/-- Modelled from posixpath.join for two arguments: the second path wins if it
is absolute; otherwise it is appended, inserting '/' unless the first path is
empty or already ends in '/'. os.walk and the restore loop build their paths
through this join. -/
def osPathJoin (a b : String) : String :=
  if startsWithSlash b.data then b
  else if a.data.isEmpty || endsWithSlash a.data then a ++ b
  else a ++ "/" ++ b

/-- Python str.replace of every backslash by '/', as applied by the backup
loop to the joined local path (a one-character replace is a character map). -/
def normSlashes (s : String) : String :=
  String.mk (s.data.map fun c => if c = '\\' then '/' else c)

/-- Normalized component list of a path: split on '/', dropping empty and '.'
components. This is the component computation inside posixpath.relpath
(commonprefix over the normalized lists); for two relative arguments the
cwd contribution of abspath cancels, and the paths this program handles
contain no '..' components. -/
def comps (s : String) : List String :=
  ((splitSep '/' s.data).map String.mk).filter (fun c => c != "" && c != ".")

/-- Joining of components with the '/' separator (posixpath.join over
components that are plain names, as posixpath.relpath performs on its
result list). -/
def joinSlash : List String → String
  | [] => ""
  | [c] => c
  | c :: cs => c ++ "/" ++ joinSlash cs

/-- Length of the longest common prefix of two component lists
(os.path.commonprefix applied to two split paths). -/
def commonPrefixLen : List String → List String → Nat
  | a :: as, b :: bs => if a = b then commonPrefixLen as bs + 1 else 0
  | _, _ => 0

/-- Modelled from posixpath.relpath (restricted to relative arguments free of
'..', where the cwd contribution of abspath cancels): drop the common
component prefix, prepend one '..' per remaining component of the start path,
and rejoin; the empty result is '.'. The restore loop maps every listed key
through this against the chosen key prefix. -/
def relpath (p start : String) : String :=
  let pc := comps p
  let sc := comps start
  let i := commonPrefixLen pc sc
  let rel := List.replicate (sc.length - i) ".." ++ pc.drop i
  if rel.isEmpty then "." else joinSlash rel

/-- Modelled from posixpath.dirname: everything before the last '/', with
trailing slashes stripped unless the head is entirely slashes. -/
def dirnameChars (l : List Char) : List Char :=
  let headRev := l.reverse.dropWhile (fun c => c != '/')
  match headRev with
  | [] => []
  | _ :: _ =>
    if headRev.all (fun c => c == '/') then headRev.reverse
    else (headRev.dropWhile (fun c => c == '/')).reverse

/-- String form of dirnameChars (posixpath.dirname). -/
def dirname (s : String) : String :=
  String.mk (dirnameChars s.data)

/-- The local full path the backup loop computes for one file (line 120):
os.path.join of the walk directory and the file name, with every backslash
replaced by '/'. -/
def backupFullPath (dirName fileName : String) : String :=
  normSlashes (osPathJoin dirName fileName)

/-- The remote key computed from the key prefix and an already-joined local
path (line 121): bucket_dir + "/" + full_path. -/
def s3FullPath (bucketDir fullPath : String) : String :=
  bucketDir ++ "/" ++ fullPath

/-- The remote key the backup loop computes for one file (lines 120-121). -/
def backupKey (bucketDir dirName fileName : String) : String :=
  s3FullPath bucketDir (backupFullPath dirName fileName)

/-- The directory path os.walk reports for a chain of subdirectory names
below the given root: the root as passed, extended by os.path.join once per
level. -/
def walkDir (root : String) (segs : List String) : String :=
  segs.foldl osPathJoin root

/-- The change check not_up_to_date (lines 89-97): the remote object's
last-modified time is 'none' when the metadata lookup raises a store
ClientError (object absent, or any other client error — the except clause
does not distinguish), in which case the check is true; otherwise the check
is the strict comparison remote < local. Timestamps are embedded as integers;
only their ordering matters here. -/
def not_up_to_date (currentLmt : Int) (s3Lmt : Option Int) : Bool :=
  match s3Lmt with
  | none => true
  | some t => decide (t < currentLmt)

/-- Pointwise update of the remote store map at one key, as an upload
overwrites the stored object and its last-modified time. -/
def upd (store : String → Option Int) (k : String) (v : Int) : String → Option Int :=
  fun q => if q = k then some v else store q

/-- State threaded through the backup traversal: the remote store (key to
last-modified time, none when absent), the keys uploaded so far, and the
success flag of back_up (line 113). -/
structure BackupState where
  store : String → Option Int
  uploads : List String
  success : Bool

/-- One iteration of the inner file loop of back_up (lines 118-126): compute
the full path and key, run the change check against the store's metadata for
that key, and upload when it returns true. An upload stores the object under
the key with the last-modified time the store assigns at that moment, given
by the uploadTime oracle; localMtime is the os.path.getmtime oracle. -/
def backupFile (uploadTime : String → Int) (bucketDir : String)
    (localMtime : String → Int) (dirName : String)
    (st : BackupState) (fileName : String) : BackupState :=
  if not_up_to_date (localMtime (backupFullPath dirName fileName))
      (st.store (backupKey bucketDir dirName fileName)) then
    { st with
      store := upd st.store (backupKey bucketDir dirName fileName)
                 (uploadTime (backupKey bucketDir dirName fileName)),
      uploads := st.uploads ++ [backupKey bucketDir dirName fileName] }
  else st

/-- One iteration of the outer os.walk loop of back_up (lines 115-126): set
the success flag (line 117) and process the directory's file list. -/
def backupDir (uploadTime : String → Int) (bucketDir : String)
    (localMtime : String → Int) (st : BackupState)
    (entry : String × List String) : BackupState :=
  entry.2.foldl (backupFile uploadTime bucketDir localMtime entry.1)
    { st with success := true }

/-- The back_up traversal (lines 112-128) over the os.walk listing of the
root: walkEntries is the sequence of (directory path, file names) pairs the
walk yields (empty when the root does not exist), store0 the remote store
before the run. The final success flag decides between silent completion and
the does-not-exist message (lines 127-128). -/
def back_up (uploadTime : String → Int) (bucketDir : String)
    (localMtime : String → Int) (walkEntries : List (String × List String))
    (store0 : String → Option Int) : BackupState :=
  walkEntries.foldl (backupDir uploadTime bucketDir localMtime)
    ⟨store0, [], false⟩

/-- The (directory path, file name) pairs of an os.walk listing, in traversal
order. -/
def walkPairs (es : List (String × List String)) : List (String × String) :=
  es.flatMap (fun e => e.2.map (fun f => (e.1, f)))

/-- Coverage invariant after a backup run: every listed (directory, file)
pair has its key present in the store with a last-modified time no older
than the file's local one. -/
def storeCovers (bd : String) (lm : String → Int) (store : String → Option Int)
    (ps : List (String × String)) : Prop :=
  ∀ p ∈ ps, ∃ t, store (backupKey bd p.1 p.2) = some t ∧
    lm (backupFullPath p.1 p.2) ≤ t

/-- The local destination path the restore loop computes for one key
(lines 151-152): the key itself when root_dir is None, otherwise
os.path.join of the root and os.path.relpath of the key against the key
prefix. -/
def restoreTarget (rootDir : Option String) (bucketDir key : String) : String :=
  match rootDir with
  | none => key
  | some r => osPathJoin r (relpath key bucketDir)

/-- The chain of paths os.makedirs brings into existence for a missing
directory: the directory itself and its ancestors by dirname, until the
empty path; the fuel bound (the path length) covers every strictly
shortening dirname chain of a relative path. -/
def mkdirFuel : Nat → String → List String
  | 0, _ => []
  | n + 1, s => if s.data.isEmpty then [] else s :: mkdirFuel n (dirname s)

/-- Paths created by one os.makedirs call (line 154). -/
def mkdirChain (s : String) : List String :=
  mkdirFuel s.data.length s

/-- State threaded through the restore traversal: the set of local paths that
exist (directories and files), the (key, target) downloads performed, and
the success flag of restore (line 147). -/
structure RestoreState where
  fs : List String
  downloads : List (String × String)
  success : Bool

/-- One iteration of the restore loop (lines 150-158). When the target's
parent directory exists the object is downloaded at once — the trailing-slash
check sits inside the missing-parent branch, so it is only consulted after a
makedirs call. When the parent is missing it is created, a key ending in '/'
is then skipped (continue, line 156), and any other key is downloaded. -/
def restoreStep (rootDir : Option String) (bucketDir : String)
    (st : RestoreState) (key : String) : RestoreState :=
  if dirname (restoreTarget rootDir bucketDir key) ∈ st.fs then
    { st with
      fs := restoreTarget rootDir bucketDir key :: st.fs,
      downloads := st.downloads ++ [(key, restoreTarget rootDir bucketDir key)],
      success := true }
  else if endsWithSlash key.data then
    { st with fs := mkdirChain (dirname (restoreTarget rootDir bucketDir key)) ++ st.fs }
  else
    { st with
      fs := restoreTarget rootDir bucketDir key ::
              (mkdirChain (dirname (restoreTarget rootDir bucketDir key)) ++ st.fs),
      downloads := st.downloads ++ [(key, restoreTarget rootDir bucketDir key)],
      success := true }

/-- Overall outcome restore reports: the invalid-bucket message and early
return (lines 142-144), the completed message (line 161), or the
does-not-exist message (line 163). -/
inductive RestoreOutcome where
  | bucketNotFound
  | completed
  | nothingFound
deriving DecidableEq

/-- The restore function (lines 141-163): bail out before any filesystem or
transfer work when the bucket does not exist, otherwise fold the loop over
the store's key listing under the prefix (keys, as produced by the
objects.filter collaborator) starting from the pre-existing local paths fs0,
and report by the success flag. -/
def restore (bucketExists : Bool) (rootDir : Option String) (bucketDir : String)
    (keys : List String) (fs0 : List String) : RestoreOutcome × RestoreState :=
  if bucketExists then
    let st := keys.foldl (restoreStep rootDir bucketDir) ⟨fs0, [], false⟩
    (if st.success then .completed else .nothingFound, st)
  else
    (.bucketNotFound, ⟨fs0, [], false⟩)

/-- Control-flow skeleton shared by the two transfer loops (back_up lines
115-126, restore lines 150-158) with a fallible transfer: a transfer that
raises propagates out of the loop to main's bare except handler, so the
items processed are those up to and including the first failing one, and
the flag records whether the run aborted. -/
def processItems (fails : String → Bool) : List String → List String × Bool
  | [] => ([], false)
  | k :: ks =>
    if fails k then ([k], true)
    else
      ((processItems fails ks).1.cons k, (processItems fails ks).2)

/-- Observable actions of main (lines 32-60), in order: the argument-count
message and early return, creation of the boto3 client and session, the
bucket check/create call, the back_up call, the restore call, the fatal-error
message of the blanket except handlers, and the no-valid-operation message. -/
inductive MainEvent where
  | printedArgCount
  | clientCreated
  | sessionCreated
  | bucketEnsured
  | backupRun
  | restoreRun
  | printedFatal
  | printedNoValidOp
deriving DecidableEq

/-- The event trace of main (lines 32-60) on an argument list (sys.argv with
the script name already stripped): fewer than three arguments print the
count message and return before the client and session are created; otherwise
dispatch on the first argument, where the bucket::directory argument must
split into at least two parts for the indexing at line 43 resp. line 53 to
succeed inside the try, and a missing '::' lands in the fatal-error handler. -/
def mainEvents (argv : List String) : List MainEvent :=
  if argv.length < 3 then
    [MainEvent.printedArgCount]
  else
    MainEvent.clientCreated :: MainEvent.sessionCreated ::
      (if argv.headD "" = "backup" then
        (if ((argv.getD 2 "").splitOn "::").length ≥ 2 then
          [MainEvent.bucketEnsured, MainEvent.backupRun]
         else [MainEvent.printedFatal])
       else if argv.headD "" = "restore" then
        (if ((argv.getD 1 "").splitOn "::").length ≥ 2 then
          [MainEvent.restoreRun]
         else [MainEvent.printedFatal])
       else [MainEvent.printedNoValidOp])

/-- The inner file loop never touches the success flag. -/
theorem backupFile_success (ut : String → Int) (bd : String) (lm : String → Int)
    (d : String) (st : BackupState) (f : String) :
    (backupFile ut bd lm d st f).success = st.success := by
  unfold backupFile
  split <;> rfl

/-- A whole file list leaves the success flag unchanged. -/
theorem foldl_backupFile_success (ut : String → Int) (bd : String) (lm : String → Int)
    (d : String) (files : List String) (st : BackupState) :
    (files.foldl (backupFile ut bd lm d) st).success = st.success := by
  induction files generalizing st with
  | nil => rfl
  | cons f fs ih => rw [List.foldl_cons, ih, backupFile_success]

/-- Each visited directory forces the success flag to true. -/
theorem backupDir_success (ut : String → Int) (bd : String) (lm : String → Int)
    (st : BackupState) (e : String × List String) :
    (backupDir ut bd lm st e).success = true := by
  unfold backupDir
  rw [foldl_backupFile_success]

/-- A nonempty walk listing ends with the success flag true. -/
theorem foldl_backupDir_success (ut : String → Int) (bd : String) (lm : String → Int)
    (es : List (String × List String)) (st : BackupState) (h : es ≠ []) :
    (es.foldl (backupDir ut bd lm) st).success = true := by
  induction es generalizing st with
  | nil => exact absurd rfl h
  | cons e es ih =>
    rw [List.foldl_cons]
    cases es with
    | nil => exact backupDir_success ut bd lm st e
    | cons e2 es2 => exact ih _ (by simp)

example : comps "p/r/a.txt" = ["p", "r", "a.txt"] := by decide
example : relpath "p/r/a.txt" "p" = "r/a.txt" := by decide
example : relpath "p/d/" "p" = "d" := by decide
example : relpath "p/" "p" = "." := by decide
example : osPathJoin "out" "d" = "out/d" := by decide
example : dirname "out/d" = "out" := by decide
example : dirname "a" = "" := by decide
example : dirname "/a" = "/" := by decide
example : dirname "a//b" = "a" := by decide
example : backupKey "p" "r" "a.txt" = "p/r/a.txt" := by decide
example : backupFullPath "r\\s" "a.txt" = "r/s/a.txt" := by decide
example : not_up_to_date 100 none = true := by decide
example : not_up_to_date 100 (some 99) = true := by decide
example : not_up_to_date 100 (some 100) = false := by decide
example : (restore true (some "out") "p" ["p/d/"] []).1 = RestoreOutcome.nothingFound := by decide
example : (restore true (some "out") "p" ["p/d/"] []).2.fs = ["out"] := by decide
example : (restore true (some "out") "p" ["p/d/"] ["out"]).2.downloads = [("p/d/", "out/d")] := by decide
example : processItems (fun k => k == "b") ["a", "b", "c"] = (["a", "b"], true) := by decide
example : mainEvents ["backup", "x"] = [MainEvent.printedArgCount] := by decide
example :
    (back_up (fun _ => 0) "p" (fun _ => 0) [("r", [])] (fun _ => none)).success = true := by
  decide
example :
    (back_up (fun _ => 0) "p" (fun _ => 0) [("r", [])] (fun _ => none)).uploads = [] := by
  decide
example :
    (back_up (fun _ => 150) "p" (fun _ => 100) [("r", ["a.txt"])] (fun _ => none)).uploads
      = ["p/r/a.txt"] := by decide

/-- Claim C3: the change check used by backup is true exactly when the remote
last-modified time is absent (any store client error in the metadata lookup
included) or strictly older than the local one, and false exactly when the
remote time is at least the local one. -/
theorem not_up_to_date_iff (l : Int) (r : Option Int) :
    (not_up_to_date l r = true ↔ r = none ∨ ∃ t, r = some t ∧ t < l) ∧
    (not_up_to_date l r = false ↔ ∃ t, r = some t ∧ l ≤ t) := by
  cases r with
  | none => simp [not_up_to_date]
  | some t =>
    constructor
    · simp [not_up_to_date]
    · simp [not_up_to_date]

/-- Claim C6: when the target bucket does not exist, restore reports the
invalid-bucket outcome, leaves the local filesystem untouched and downloads
nothing. -/
theorem restore_bucket_missing_total_stop (rootDir : Option String) (bucketDir : String)
    (keys : List String) (fs0 : List String) :
    (restore false rootDir bucketDir keys fs0).1 = RestoreOutcome.bucketNotFound ∧
    (restore false rootDir bucketDir keys fs0).2.fs = fs0 ∧
    (restore false rootDir bucketDir keys fs0).2.downloads = [] :=
  ⟨rfl, rfl, rfl⟩

/-- Claim C9: with fewer than three arguments, main prints the argument-count
message and returns: no client or session is created and no bucket, backup or
restore operation runs. -/
theorem main_too_few_args (argv : List String) (h : argv.length < 3) :
    mainEvents argv = [MainEvent.printedArgCount] ∧
    MainEvent.clientCreated ∉ mainEvents argv ∧
    MainEvent.sessionCreated ∉ mainEvents argv ∧
    MainEvent.bucketEnsured ∉ mainEvents argv ∧
    MainEvent.backupRun ∉ mainEvents argv ∧
    MainEvent.restoreRun ∉ mainEvents argv := by
  have he : mainEvents argv = [MainEvent.printedArgCount] := by
    unfold mainEvents
    rw [if_pos h]
  refine ⟨he, ?_, ?_, ?_, ?_, ?_⟩ <;> rw [he] <;> simp

/-- Witness for main_too_few_args at a concrete two-element argument list. -/
theorem main_too_few_args_witness :
    mainEvents ["backup", "b::d"] = [MainEvent.printedArgCount] :=
  (main_too_few_args ["backup", "b::d"] (by decide)).1

/-- Counterexample to claim C7: with three items of which the second fails,
the failing transfer raises out of the loop, so the third item is never
attempted. -/
theorem transfer_failure_not_tolerated :
    processItems (fun k => k == "b") ["a", "b", "c"] = (["a", "b"], true) ∧
    "c" ∉ (processItems (fun k => k == "b") ["a", "b", "c"]).1 := by
  decide

/-- Claim C7 (amended): the first failing transfer aborts the traversal — the
items before it and the failing item itself are attempted, the remaining
items are not, and the run is recorded as aborted. -/
theorem transfer_failure_aborts (fails : String → Bool) (ks1 : List String)
    (k : String) (ks2 : List String)
    (h1 : ∀ j ∈ ks1, fails j = false) (h2 : fails k = true) :
    processItems fails (ks1 ++ k :: ks2) = (ks1 ++ [k], true) := by
  induction ks1 with
  | nil => simp [processItems, h2]
  | cons j ks ih =>
    have hj : fails j = false := h1 j (List.mem_cons_self j ks)
    have ih2 := ih (fun x hx => h1 x (List.mem_cons_of_mem j hx))
    simp [processItems, hj, ih2]

/-- Witness for transfer_failure_aborts at a concrete failing middle item. -/
theorem transfer_failure_aborts_witness :
    processItems (fun k => k == "b") (["a"] ++ "b" :: ["c"]) = (["a"] ++ ["b"], true) :=
  transfer_failure_aborts (fun k => k == "b") ["a"] "b" ["c"] (by decide) (by decide)

/-- Counterexample to claim C5: a root that exists but contains no files
anywhere (one walk entry with an empty file list) still ends the backup with
the success flag set — the does-not-exist report is not given — although
nothing was uploaded. -/
theorem empty_root_reports_success :
    (back_up (fun _ => 0) "p" (fun _ => 0) [("r", [])] (fun _ => none)).success = true ∧
    (back_up (fun _ => 0) "p" (fun _ => 0) [("r", [])] (fun _ => none)).uploads = [] := by
  decide

/-- Claim C5 (amended): backup reports nothing-found exactly when the walk
yields no directory entries at all (as for a nonexistent root) — a root that
exists with no files still reports success — while restoring a prefix under
which no keys are listed does report nothing-found. -/
theorem nothing_found_iff_no_walk_entries (ut : String → Int) (bd : String)
    (lm : String → Int) (es : List (String × List String)) (s0 : String → Option Int)
    (rd : Option String) (bd2 : String) (fs0 : List String) :
    ((back_up ut bd lm es s0).success = true ↔ es ≠ []) ∧
    (restore true rd bd2 [] fs0).1 = RestoreOutcome.nothingFound := by
  refine ⟨⟨?_, ?_⟩, rfl⟩
  · intro hs he
    subst he
    exact absurd hs (by simp [back_up])
  · intro h
    exact foldl_backupDir_success ut bd lm es ⟨s0, [], false⟩ h

/-- One restore iteration preserves the link between the success flag and a
nonempty download list. -/
theorem restoreStep_flag (rd : Option String) (bd : String) (st : RestoreState)
    (key : String) (h : st.success = true ↔ st.downloads ≠ []) :
    (restoreStep rd bd st key).success = true ↔
      (restoreStep rd bd st key).downloads ≠ [] := by
  unfold restoreStep
  split
  · simp
  · split
    · simpa using h
    · simp

/-- The whole restore fold preserves the link between the success flag and a
nonempty download list. -/
theorem foldl_restoreStep_flag (rd : Option String) (bd : String)
    (keys : List String) (st : RestoreState)
    (h : st.success = true ↔ st.downloads ≠ []) :
    (keys.foldl (restoreStep rd bd) st).success = true ↔
      (keys.foldl (restoreStep rd bd) st).downloads ≠ [] := by
  induction keys generalizing st with
  | nil => exact h
  | cons k ks ih => rw [List.foldl_cons]; exact ih _ (restoreStep_flag rd bd st k h)

/-- Claim C10: restore reports completion exactly when at least one download
was performed; and on a listing holding only a directory-marker key whose
parent does not yet exist, the directory is created on disk while the
operation still reports nothing-found with no download. -/
theorem restore_success_iff_download :
    (∀ (rd : Option String) (bd : String) (keys : List String) (fs0 : List String),
        (restore true rd bd keys fs0).1 = RestoreOutcome.completed ↔
          (restore true rd bd keys fs0).2.downloads ≠ []) ∧
    ((restore true (some "out") "p" ["p/d/"] []).1 = RestoreOutcome.nothingFound ∧
      "out" ∈ (restore true (some "out") "p" ["p/d/"] []).2.fs ∧
      (restore true (some "out") "p" ["p/d/"] []).2.downloads = []) := by
  constructor
  · intro rd bd keys fs0
    have h := foldl_restoreStep_flag rd bd keys ⟨fs0, [], false⟩ (by simp)
    cases hs : (keys.foldl (restoreStep rd bd) ⟨fs0, [], false⟩).success with
    | false =>
      rw [hs] at h
      simp only [Bool.false_eq_true, false_iff, ne_eq, not_not] at h
      simp [restore, hs, h]
    | true =>
      rw [hs] at h
      simp only [true_iff, ne_eq] at h
      simp [restore, hs, h]
  · exact ⟨by decide, by decide, by decide⟩

/-- Counterexample to claim C4: a key ending in '/' whose target's parent
directory already exists is not skipped — the trailing-slash check sits
inside the missing-parent branch — so the marker object is downloaded to a
local file. -/
theorem marker_key_downloaded_when_parent_exists :
    endsWithSlash ("p/d/" : String).data = true ∧
    (restore true (some "out") "p" ["p/d/"] ["out"]).2.downloads
      = [("p/d/", "out/d")] := by
  decide

/-- Claim C4 (amended): a key ending in '/' triggers only directory creation
and no download precisely in the case where the target's parent directory
does not yet exist; the step then creates the parent chain and writes no
file. -/
theorem marker_skip_only_when_parent_missing (rd : Option String) (bd key : String)
    (st : RestoreState) (hm : endsWithSlash key.data = true)
    (hp : dirname (restoreTarget rd bd key) ∉ st.fs) :
    (restoreStep rd bd st key).downloads = st.downloads ∧
    (restoreStep rd bd st key).fs
      = mkdirChain (dirname (restoreTarget rd bd key)) ++ st.fs := by
  unfold restoreStep
  rw [if_neg hp, if_pos hm]
  exact ⟨rfl, rfl⟩

/-- Witness for marker_skip_only_when_parent_missing on an empty local
filesystem and the marker key p/d/. -/
theorem marker_skip_only_when_parent_missing_witness :
    (restoreStep (some "out") "p" ⟨[], [], false⟩ "p/d/").downloads = [] ∧
    (restoreStep (some "out") "p" ⟨[], [], false⟩ "p/d/").fs
      = mkdirChain (dirname (restoreTarget (some "out") "p" "p/d/")) ++ [] :=
  marker_skip_only_when_parent_missing (some "out") "p" "p/d/" ⟨[], [], false⟩
    (by decide) (by decide)

/-- Appending strings appends their character data. -/
theorem strData_append (a b : String) : (a ++ b).data = a.data ++ b.data := rfl

/-- Strings with the same character data are equal. -/
theorem strExt (a b : String) (h : a.data = b.data) : a = b := by
  cases a
  cases b
  exact congrArg String.mk h

/-- Character data of a slash-separated concatenation. -/
theorem strData_join3 (a b : String) : (a ++ "/" ++ b).data = a.data ++ '/' :: b.data := by
  rw [strData_append, strData_append, List.append_assoc]
  rfl

/-- Splitting never yields an empty group list. -/
theorem splitSep_ne_nil (sep : Char) : ∀ l : List Char, splitSep sep l ≠ [] := by
  intro l
  cases l with
  | nil => simp [splitSep]
  | cons c rest =>
    simp only [splitSep]
    cases splitSep sep rest with
    | nil => simp
    | cons g gs =>
      by_cases hc : c = sep
      · simp [hc]
      · simp [hc]

/-- Splitting distributes over an appended separator occurrence. -/
theorem splitSep_append (sep : Char) (xs ys : List Char) :
    splitSep sep (xs ++ sep :: ys) = splitSep sep xs ++ splitSep sep ys := by
  induction xs with
  | nil =>
    show splitSep sep (sep :: ys) = [[]] ++ splitSep sep ys
    simp only [splitSep]
    cases h : splitSep sep ys with
    | nil => exact absurd h (splitSep_ne_nil sep ys)
    | cons g gs => simp
  | cons c xs ih =>
    rw [List.cons_append]
    simp only [splitSep, ih]
    cases h : splitSep sep xs with
    | nil => exact absurd h (splitSep_ne_nil sep xs)
    | cons g gs =>
      by_cases hc : c = sep
      · simp [hc]
      · simp [hc]

/-- Components of a slash-separated concatenation. -/
theorem comps_append_slash (X W : String) :
    comps (X ++ "/" ++ W) = comps X ++ comps W := by
  unfold comps
  rw [strData_join3, splitSep_append, List.map_append, List.filter_append]

/-- The common prefix of a list with itself extended is the whole list. -/
theorem commonPrefixLen_append_self (l m : List String) :
    commonPrefixLen (l ++ m) l = l.length := by
  induction l with
  | nil =>
    cases m with
    | nil => rfl
    | cons x xs => rfl
  | cons a as ih => simp [commonPrefixLen, ih]

/-- Counterexample to claim C2: for root r, relative path a.txt and prefix p,
the backup side maps the local path r/a.txt to the key p/r/a.txt, and the
restore side maps that key back to the relative path r/a.txt — not a.txt —
so restoring into the same root writes r/r/a.txt. -/
theorem round_trip_claim_false :
    backupFullPath "r" "a.txt" = "r/a.txt" ∧
    s3FullPath "p" (backupFullPath "r" "a.txt") = "p/r/a.txt" ∧
    relpath (s3FullPath "p" (backupFullPath "r" "a.txt")) "p" = "r/a.txt" ∧
    restoreTarget (some "r") "p" (s3FullPath "p" (backupFullPath "r" "a.txt"))
      = "r/r/a.txt" ∧
    ("r/a.txt" : String) ≠ "a.txt" := by
  decide

/-- Claim C2 (amended): the two mappings invert only up to the walk path —
for a key the backup side builds from prefix X and normalized full local
path W (which includes the root), the restore side recovers W itself, so the
file lands at R/W under the restore root R, not at the original root-relative
position. -/
theorem round_trip_yields_walk_path (X W : String)
    (h1 : comps W ≠ []) (h2 : joinSlash (comps W) = W) :
    relpath (s3FullPath X W) X = W ∧
    ∀ R : String, restoreTarget (some R) X (s3FullPath X W) = osPathJoin R W := by
  have hrel : relpath (s3FullPath X W) X = W := by
    obtain ⟨c, cs, hc⟩ := List.exists_cons_of_ne_nil h1
    have hp : s3FullPath X W = X ++ "/" ++ W := rfl
    simp only [relpath, hp, comps_append_slash, commonPrefixLen_append_self,
      Nat.sub_self, List.replicate_zero, List.nil_append, List.drop_left]
    rw [hc] at h2 ⊢
    simpa using h2
  exact ⟨hrel, fun R => by simp [restoreTarget, hrel]⟩

/-- Witness for round_trip_yields_walk_path at prefix p and walk path
r/a.txt. -/
theorem round_trip_yields_walk_path_witness :
    relpath (s3FullPath "p" "r/a.txt") "p" = "r/a.txt" :=
  (round_trip_yields_walk_path "p" "r/a.txt" (by decide) (by decide)).1

/-- The posix join of a nonempty path with no trailing slash and a nonempty
relative name inserts exactly one separator. -/
theorem osPathJoin_eq (a b : String) (ha1 : a.data ≠ []) (ha2 : a.data.getLast? ≠ some '/')
    (_hb1 : b.data ≠ []) (hb2 : b.data.head? ≠ some '/') :
    osPathJoin a b = a ++ "/" ++ b := by
  have h1 : startsWithSlash b.data = false := by
    cases hb : b.data with
    | nil => rfl
    | cons c rest =>
      have hc : c ≠ '/' := by
        intro h
        apply hb2
        rw [hb, h]
        rfl
      simp [startsWithSlash, hc]
  have h2 : endsWithSlash a.data = false := by
    simp only [endsWithSlash, beq_eq_false_iff_ne, ne_eq]
    exact ha2
  have h3 : a.data.isEmpty = false := by
    cases hd : a.data with
    | nil => exact absurd hd ha1
    | cons c r => rfl
  unfold osPathJoin
  simp [h1, h2, h3]

/-- Last character of a slash-separated concatenation with nonempty tail. -/
theorem getLast?_join3 (a b : String) (hb : b.data ≠ []) :
    (a ++ "/" ++ b).data.getLast? = b.data.getLast? := by
  rw [strData_join3, List.getLast?_append_cons]
  have h : '/' :: b.data = ['/'] ++ b.data := rfl
  rw [h, List.getLast?_append_of_ne_nil _ hb]

/-- Folding the posix join over plain components concatenates them with
single slashes. -/
theorem foldl_osPathJoin_eq (l : List String) :
    ∀ root : String, l ≠ [] → root.data ≠ [] → root.data.getLast? ≠ some '/' →
      (∀ s ∈ l, s.data ≠ [] ∧ '/' ∉ s.data) →
      List.foldl osPathJoin root l = root ++ "/" ++ joinSlash l := by
  induction l with
  | nil => exact fun root h => absurd rfl h
  | cons s rest ih =>
    intro root _ hr1 hr2 hl
    obtain ⟨hs1, hs2⟩ := hl s (List.mem_cons_self s rest)
    have hhead : s.data.head? ≠ some '/' := by
      intro hc
      exact hs2 (List.mem_of_mem_head? (by rw [hc]; rfl))
    have hlast : s.data.getLast? ≠ some '/' := by
      intro hc
      exact hs2 (List.mem_of_getLast?_eq_some hc)
    have hjoin : osPathJoin root s = root ++ "/" ++ s :=
      osPathJoin_eq root s hr1 hr2 hs1 hhead
    cases rest with
    | nil =>
      rw [List.foldl_cons, List.foldl_nil, hjoin]
      rfl
    | cons t ts =>
      have hr1' : (root ++ "/" ++ s).data ≠ [] := by
        rw [strData_join3]
        simp
      have hr2' : (root ++ "/" ++ s).data.getLast? ≠ some '/' := by
        rw [getLast?_join3 root s hs1]
        exact hlast
      have hrec := ih (root ++ "/" ++ s) (by simp) hr1' hr2'
        (fun x hx => hl x (List.mem_cons_of_mem s hx))
      rw [List.foldl_cons, hjoin, hrec]
      have hj : joinSlash (s :: t :: ts) = s ++ "/" ++ joinSlash (t :: ts) := rfl
      rw [hj]
      apply strExt
      simp only [strData_append, List.append_assoc]

/-- The backslash replacement is the identity on backslash-free strings. -/
theorem normSlashes_eq_self (s : String) (h : '\\' ∉ s.data) : normSlashes s = s := by
  have hmap : ∀ l : List Char, '\\' ∉ l →
      l.map (fun c => if c = '\\' then '/' else c) = l := by
    intro l hl
    induction l with
    | nil => rfl
    | cons c cs ih =>
      have hc : c ≠ '\\' := fun hcc => hl (hcc ▸ List.mem_cons_self c cs)
      rw [List.map_cons, if_neg hc, ih (fun hm => hl (List.mem_cons_of_mem c hm))]
  show String.mk (s.data.map fun c => if c = '\\' then '/' else c) = s
  rw [hmap s.data h]

/-- Slash-joining backslash-free components yields a backslash-free string. -/
theorem noBackslash_joinSlash (l : List String) (h : ∀ s ∈ l, '\\' ∉ s.data) :
    '\\' ∉ (joinSlash l).data := by
  induction l with
  | nil => simp [joinSlash]
  | cons s rest ih =>
    cases rest with
    | nil => exact h s (List.mem_cons_self s [])
    | cons t ts =>
      have hj : joinSlash (s :: t :: ts) = s ++ "/" ++ joinSlash (t :: ts) := rfl
      rw [hj, strData_join3]
      intro hmem
      rcases List.mem_append.mp hmem with h1 | h2
      · exact h s (List.mem_cons_self s (t :: ts)) h1
      · rcases List.mem_cons.mp h2 with h3 | h4
        · exact absurd h3 (by decide)
        · exact ih (fun x hx => h x (List.mem_cons_of_mem s hx)) h4

/-- Counterexample to claim C1: the file a.txt sitting directly in the walked
root r (so its path relative to the root is a.txt) gets the key p/r/a.txt,
not the claimed prefix/relative-path key p/a.txt. -/
theorem backup_key_relative_claim_false :
    backupKey "p" "r" "a.txt" = "p/r/a.txt" ∧
    s3FullPath "p" "a.txt" = "p/a.txt" ∧
    backupKey "p" "r" "a.txt" ≠ s3FullPath "p" "a.txt" := by
  decide

/-- Claim C1 (amended): for a file reached by os.walk below the root through
plain (separator-free, backslash-free) components, the computed key is the
prefix, '/', then the full walk path — the root as passed, '/', and the
root-relative path — so the root itself is embedded in the key between the
prefix and the relative path. -/
theorem backup_key_includes_root (bucketDir root f : String) (segs : List String)
    (hroot : root.data ≠ [] ∧ root.data.getLast? ≠ some '/' ∧ '\\' ∉ root.data)
    (hsegs : ∀ s ∈ segs, s.data ≠ [] ∧ '/' ∉ s.data ∧ '\\' ∉ s.data)
    (hf : f.data ≠ [] ∧ '/' ∉ f.data ∧ '\\' ∉ f.data) :
    backupKey bucketDir (walkDir root segs) f
      = s3FullPath bucketDir (root ++ "/" ++ joinSlash (segs ++ [f])) := by
  obtain ⟨hr1, hr2, hr3⟩ := hroot
  obtain ⟨hf1, hf2, hf3⟩ := hf
  have hall : ∀ s ∈ segs ++ [f], s.data ≠ [] ∧ '/' ∉ s.data := by
    intro x hx
    rcases List.mem_append.mp hx with h | h
    · exact ⟨(hsegs x h).1, (hsegs x h).2.1⟩
    · have hxf := List.mem_singleton.mp h
      subst hxf
      exact ⟨hf1, hf2⟩
  have hfold : List.foldl osPathJoin root (segs ++ [f])
      = root ++ "/" ++ joinSlash (segs ++ [f]) :=
    foldl_osPathJoin_eq (segs ++ [f]) root (by simp) hr1 hr2 hall
  have hjoin : osPathJoin (walkDir root segs) f
      = List.foldl osPathJoin root (segs ++ [f]) := by
    rw [walkDir, List.foldl_append]
    rfl
  have hnb : '\\' ∉ (root ++ "/" ++ joinSlash (segs ++ [f])).data := by
    rw [strData_join3]
    intro hmem
    rcases List.mem_append.mp hmem with h1 | h2
    · exact hr3 h1
    · rcases List.mem_cons.mp h2 with h3 | h4
      · exact absurd h3 (by decide)
      · refine noBackslash_joinSlash (segs ++ [f]) ?_ h4
        intro x hx
        rcases List.mem_append.mp hx with hx1 | hx2
        · exact (hsegs x hx1).2.2
        · have hxf := List.mem_singleton.mp hx2
          subst hxf
          exact hf3
  show s3FullPath bucketDir (normSlashes (osPathJoin (walkDir root segs) f)) = _
  rw [hjoin, hfold, normSlashes_eq_self _ hnb]

/-- Witness for backup_key_includes_root: root r, one subdirectory s, file
a.txt, prefix p. -/
theorem backup_key_includes_root_witness :
    backupKey "p" (walkDir "r" ["s"]) "a.txt"
      = s3FullPath "p" ("r" ++ "/" ++ joinSlash (["s"] ++ ["a.txt"])) :=
  backup_key_includes_root "p" "r" "a.txt" ["s"] (by decide) (by decide) (by decide)

/-- Unfolding of the walked pairs of one more directory entry. -/
theorem walkPairs_cons (e : String × List String) (es : List (String × List String)) :
    walkPairs (e :: es) = e.2.map (fun f => (e.1, f)) ++ walkPairs es := by
  simp [walkPairs]

/-- Coverage is preserved under shrinking the pair list. -/
theorem storeCovers_mono (bd : String) (lm : String → Int) (store : String → Option Int)
    (ps qs : List (String × String)) (hsub : ∀ x ∈ ps, x ∈ qs)
    (h : storeCovers bd lm store qs) : storeCovers bd lm store ps :=
  fun p hp => h p (hsub p hp)

/-- One file step extends coverage by its own pair, provided the store
stamps every upload no earlier than the file's local time. -/
theorem cover_backupFile (ut : String → Int) (bd : String) (lm : String → Int)
    (d : String) (st : BackupState) (f : String) (ps : List (String × String))
    (hclock : ∀ d2 f2, lm (backupFullPath d2 f2) ≤ ut (backupKey bd d2 f2))
    (hc : storeCovers bd lm st.store ps) :
    storeCovers bd lm (backupFile ut bd lm d st f).store ((d, f) :: ps) := by
  unfold backupFile
  split
  · intro p hp
    rcases List.mem_cons.mp hp with hpe | hpm
    · subst hpe
      refine ⟨ut (backupKey bd d f), ?_, hclock d f⟩
      simp [upd]
    · by_cases hk : backupKey bd p.1 p.2 = backupKey bd d f
      · refine ⟨ut (backupKey bd d f), ?_, ?_⟩
        · simp [upd, hk]
        · calc lm (backupFullPath p.1 p.2)
              ≤ ut (backupKey bd p.1 p.2) := hclock p.1 p.2
            _ = ut (backupKey bd d f) := by rw [hk]
      · obtain ⟨t, ht, hle⟩ := hc p hpm
        refine ⟨t, ?_, hle⟩
        simpa [upd, hk] using ht
  next hskip =>
    intro p hp
    rcases List.mem_cons.mp hp with hpe | hpm
    · subst hpe
      show ∃ t, st.store (backupKey bd d f) = some t ∧ lm (backupFullPath d f) ≤ t
      cases hs : st.store (backupKey bd d f) with
      | none =>
        rw [hs] at hskip
        exact absurd rfl hskip
      | some t =>
        rw [hs] at hskip
        simp [not_up_to_date] at hskip
        refine ⟨t, rfl, ?_⟩
        omega
    · exact hc p hpm

/-- A directory's file list extends coverage by all its pairs. -/
theorem cover_foldl_files (ut : String → Int) (bd : String) (lm : String → Int)
    (d : String) (files : List String) :
    ∀ (st : BackupState) (ps : List (String × String)),
      (∀ d2 f2, lm (backupFullPath d2 f2) ≤ ut (backupKey bd d2 f2)) →
      storeCovers bd lm st.store ps →
      storeCovers bd lm ((files.foldl (backupFile ut bd lm d) st).store)
        (files.map (fun f => (d, f)) ++ ps) := by
  induction files with
  | nil =>
    intro st ps _ hc
    simpa using hc
  | cons f fs ih =>
    intro st ps hclock hc
    rw [List.foldl_cons]
    have h1 := cover_backupFile ut bd lm d st f ps hclock hc
    have h2 := ih (backupFile ut bd lm d st f) ((d, f) :: ps) hclock h1
    refine storeCovers_mono _ _ _ _ _ ?_ h2
    intro x hx
    rw [List.map_cons] at hx
    rcases List.mem_append.mp hx with h | h
    · rcases List.mem_cons.mp h with h1x | h1x
      · subst h1x
        exact List.mem_append.mpr (Or.inr (List.mem_cons_self _ _))
      · exact List.mem_append.mpr (Or.inl h1x)
    · exact List.mem_append.mpr (Or.inr (List.mem_cons_of_mem _ h))

/-- The whole walk extends coverage by every walked pair. -/
theorem cover_foldl_dirs (ut : String → Int) (bd : String) (lm : String → Int)
    (es : List (String × List String)) :
    ∀ (st : BackupState) (ps : List (String × String)),
      (∀ d2 f2, lm (backupFullPath d2 f2) ≤ ut (backupKey bd d2 f2)) →
      storeCovers bd lm st.store ps →
      storeCovers bd lm ((es.foldl (backupDir ut bd lm) st).store)
        (walkPairs es ++ ps) := by
  induction es with
  | nil =>
    intro st ps _ hc
    simpa [walkPairs] using hc
  | cons e es ih =>
    intro st ps hclock hc
    rw [List.foldl_cons]
    have h1 := cover_foldl_files ut bd lm e.1 e.2 { st with success := true } ps hclock hc
    have h2 := ih (backupDir ut bd lm st e) (e.2.map (fun f => (e.1, f)) ++ ps) hclock h1
    refine storeCovers_mono _ _ _ _ _ ?_ h2
    intro x hx
    rw [walkPairs_cons] at hx
    rcases List.mem_append.mp hx with h | hps
    · rcases List.mem_append.mp h with h1x | h2x
      · exact List.mem_append.mpr (Or.inr (List.mem_append.mpr (Or.inl h1x)))
      · exact List.mem_append.mpr (Or.inl h2x)
    · exact List.mem_append.mpr (Or.inr (List.mem_append.mpr (Or.inr hps)))

/-- A file whose key is covered is skipped unchanged. -/
theorem nop_backupFile (ut : String → Int) (bd : String) (lm : String → Int)
    (d : String) (st : BackupState) (f : String)
    (hc : ∃ t, st.store (backupKey bd d f) = some t ∧ lm (backupFullPath d f) ≤ t) :
    backupFile ut bd lm d st f = st := by
  obtain ⟨t, ht, hle⟩ := hc
  have hfalse : not_up_to_date (lm (backupFullPath d f))
      (st.store (backupKey bd d f)) = false := by
    rw [ht]
    simp [not_up_to_date]
    omega
  unfold backupFile
  rw [hfalse]
  simp

/-- A fully covered file list is a no-op for the state. -/
theorem nop_foldl_files (ut : String → Int) (bd : String) (lm : String → Int)
    (d : String) (files : List String) :
    ∀ st : BackupState,
      (∀ f ∈ files, ∃ t, st.store (backupKey bd d f) = some t ∧
        lm (backupFullPath d f) ≤ t) →
      files.foldl (backupFile ut bd lm d) st = st := by
  induction files with
  | nil =>
    intro st _
    rfl
  | cons f fs ih =>
    intro st hc
    rw [List.foldl_cons, nop_backupFile ut bd lm d st f (hc f (List.mem_cons_self f fs))]
    exact ih st (fun x hx => hc x (List.mem_cons_of_mem f hx))

/-- A covered directory only sets the success flag. -/
theorem nop_backupDir (ut : String → Int) (bd : String) (lm : String → Int)
    (st : BackupState) (e : String × List String)
    (hc : storeCovers bd lm st.store (e.2.map (fun f => (e.1, f)))) :
    backupDir ut bd lm st e = { st with success := true } := by
  unfold backupDir
  apply nop_foldl_files
  intro f hf
  exact hc (e.1, f) (List.mem_map.mpr ⟨f, hf, rfl⟩)

/-- A covered walk changes neither the store nor the upload list. -/
theorem nop_foldl_dirs (ut : String → Int) (bd : String) (lm : String → Int)
    (es : List (String × List String)) :
    ∀ st : BackupState, storeCovers bd lm st.store (walkPairs es) →
      (es.foldl (backupDir ut bd lm) st).store = st.store ∧
      (es.foldl (backupDir ut bd lm) st).uploads = st.uploads := by
  induction es with
  | nil =>
    intro st _
    exact ⟨rfl, rfl⟩
  | cons e es ih =>
    intro st hc
    have hce : storeCovers bd lm st.store (e.2.map (fun f => (e.1, f))) := by
      refine storeCovers_mono _ _ _ _ _ ?_ hc
      intro x hx
      rw [walkPairs_cons]
      exact List.mem_append.mpr (Or.inl hx)
    rw [List.foldl_cons, nop_backupDir ut bd lm st e hce]
    have hc' : storeCovers bd lm ({ st with success := true } : BackupState).store
        (walkPairs es) := by
      refine storeCovers_mono _ _ _ _ _ ?_ hc
      intro x hx
      rw [walkPairs_cons]
      exact List.mem_append.mpr (Or.inr hx)
    exact ih _ hc'

/-- Claim C8: a second backup run over the same walk with unchanged local
files performs zero uploads, because the change check is false for every
walked file against the store the first run left behind — given that the
store stamps each upload no earlier than the uploaded file's local
modification time. -/
theorem second_backup_run_uploads_nothing (ut ut2 : String → Int) (bd : String)
    (lm : String → Int) (es : List (String × List String)) (s0 : String → Option Int)
    (hclock : ∀ d f, lm (backupFullPath d f) ≤ ut (backupKey bd d f)) :
    (back_up ut2 bd lm es (back_up ut bd lm es s0).store).uploads = [] ∧
    ∀ p ∈ walkPairs es,
      not_up_to_date (lm (backupFullPath p.1 p.2))
        ((back_up ut bd lm es s0).store (backupKey bd p.1 p.2)) = false := by
  have hcov : storeCovers bd lm (back_up ut bd lm es s0).store (walkPairs es) := by
    have h0 : storeCovers bd lm (⟨s0, [], false⟩ : BackupState).store [] :=
      fun p hp => absurd hp (List.not_mem_nil p)
    have := cover_foldl_dirs ut bd lm es ⟨s0, [], false⟩ [] hclock h0
    simpa using this
  constructor
  · exact (nop_foldl_dirs ut2 bd lm es ⟨(back_up ut bd lm es s0).store, [], false⟩ hcov).2
  · intro p hp
    obtain ⟨t, ht, hle⟩ := hcov p hp
    rw [ht]
    simp [not_up_to_date]
    omega

/-- Witness for second_backup_run_uploads_nothing: one file a.txt under root
r, local time 100, first-run upload stamp 100. -/
theorem second_backup_run_uploads_nothing_witness :
    (back_up (fun _ => (200 : Int)) "p" (fun _ => (100 : Int)) [("r", ["a.txt"])]
        (back_up (fun _ => (100 : Int)) "p" (fun _ => (100 : Int)) [("r", ["a.txt"])]
          (fun _ => none)).store).uploads = [] :=
  (second_backup_run_uploads_nothing (fun _ => (100 : Int)) (fun _ => (200 : Int)) "p"
      (fun _ => (100 : Int)) [("r", ["a.txt"])] (fun _ => none)
      (fun _ _ => le_refl (100 : Int))).1
